import Mathlib

/-!
Verification of the Notefy note-taking application (src/app.js).

This file gives a shallow embedding of the local persistence and
state-synchronization core of the application: the note data model, the
repository operations (createNote, updateNoteFields, deleteNote,
handleImport), tag extraction (extractTags), the undo/redo history
(saveUndoState, handleUndo, handleRedo) and tab/session handling
(handleDeleteNote, getFilteredNotes).  Machine time (Date.now()) is passed
explicitly as a natural-number parameter; generated ids are passed
explicitly as strings; the LocalStorage backing is modelled as an explicit
"stored" field together with a boolean oracle saying whether the setItem
call succeeds.
-/

namespace Notefy

/-! ## Tag extraction (app.js lines 251-261)

The source scans content with the JavaScript global regex

  (?:^|\s)#([a-z0-9_-]\x7b2,24\x7d)(?:\s|$)  with flags g and i

in an exec loop, lowercases each captured group, and deduplicates via a
Set (insertion order preserved).  The model below reproduces the engine
behaviour exactly, including a crucial detail: a successful match consumes
the trailing whitespace character, so a hashtag that follows a previous
match separated by a single whitespace character is not matched again. -/

/-- Character class [a-z0-9_-] under the i flag, i.e. ASCII letters,
digits, underscore and hyphen. -/
def isTagChar (c : Char) : Bool :=
  (('a' ≤ c && c ≤ 'z') || ('A' ≤ c && c ≤ 'Z') ||
   ('0' ≤ c && c ≤ '9') || c == '_' || c == '-')

/-- ASCII fragment of the JavaScript \s class (sufficient for the ASCII
content considered here): space, tab, line feed, carriage return,
vertical tab, form feed. -/
def isJsWs (c : Char) : Bool :=
  (c == ' ' || c == '\t' || c == '\n' || c == '\r' ||
   c == '\x0b' || c == '\x0c')

/-- After a '#' has been consumed at the current position, try to read the
tag body: a maximal run of tag characters that must have length between 2
and 24 and be followed by whitespace (which the match consumes) or the end
of the string.  Returns the captured run and the remaining characters
after everything the match consumed.  A run longer than 24 characters can
never match: any shorter greedy retry is followed by a tag character,
which is neither whitespace nor the end. -/
def readTagBody (cs : List Char) : Option (List Char × List Char) :=
  let run := cs.takeWhile isTagChar
  let rest := cs.dropWhile isTagChar
  if 2 ≤ run.length ∧ run.length ≤ 24 then
    match rest with
    | [] => some (run, [])
    | c :: cs1 => if isJsWs c then some (run, cs1) else none
  else none

/-- Attempt of the whole regex at the current position.  At the start of
the string the (?:^|\s) group can match empty via the anchor; at any
position it can instead consume one whitespace character.  Returns the
captured tag body and the characters remaining after the match. -/
def matchTagAt (atStart : Bool) (cs : List Char) : Option (List Char × List Char) :=
  match cs with
  | [] => none
  | c :: cs1 =>
    if atStart && c == '#' then readTagBody cs1
    else if isJsWs c then
      match cs1 with
      | '#' :: cs2 => readTagBody cs2
      | _ => none
    else none

/-- The exec loop: look for the leftmost match at or after the current
position; on a match, record the lowercased capture (Set semantics,
first-seen order) and resume after the consumed text; otherwise advance
one character.  Fuel-based structural recursion; every step consumes at
least one character, so fuel equal to the length of the input plus one is
always sufficient. -/
def scanTags : Nat → Bool → List Char → List String → List String
  | 0, _, _, acc => acc
  | fuel + 1, atStart, cs, acc =>
    match matchTagAt atStart cs with
    | some (t, rest) =>
      let tag : String := ⟨t.map Char.toLower⟩
      scanTags fuel false rest (if acc.contains tag then acc else acc ++ [tag])
    | none =>
      match cs with
      | [] => acc
      | _ :: cs1 => scanTags fuel false cs1 acc

/-- extractTags (app.js lines 251-261). -/
def extractTags (content : String) : List String :=
  scanTags (content.data.length + 1) true content.data []

/-! ## Data model

A Note record as created by createNote (app.js lines 163-179) and patched
by updateNoteFields.  The images map stores only key presence, so it is
modelled as the list of its keys.  coverImage is null (none) or an image
key / data URL; coverPosition is absent (none) until a patch sets it. -/

structure Note where
  id : String
  title : String
  content : String
  tags : List String
  createdAt : Nat
  updatedAt : Nat
  archived : Bool
  starred : Bool
  coverImage : Option String
  coverPosition : Option String
  images : List String
deriving DecidableEq

/-- A partial-fields patch as passed to updateNoteFields.  A field set to
none is absent from the patch object; the call sites in app.js patch only
the fields below.  For coverImage the patched value may itself be null,
hence the nested Option. -/
structure Patch where
  title : Option String := none
  content : Option String := none
  starred : Option Bool := none
  coverImage : Option (Option String) := none
  coverPosition : Option String := none
deriving DecidableEq

/-- Snapshot pushed on the undo/redo stacks (app.js lines 1210-1215). -/
structure Snapshot where
  id : String
  title : String
  content : String
  timestamp : Nat
deriving DecidableEq

/-! ## Sorting by updatedAt descending

The source re-sorts with Array.prototype.sort and the comparator
(a, b) => b.updatedAt - a.updatedAt.  The claims constrain only the
pairwise ordering of the result (which any correct sort realises), so the
sort is modelled as an insertion sort for that comparator. -/

/-- Insert a note into a list keeping larger updatedAt values first. -/
def insertByUpdated (n : Note) : List Note → List Note
  | [] => [n]
  | m :: ms =>
    if m.updatedAt ≤ n.updatedAt then n :: m :: ms else m :: insertByUpdated n ms

/-- Sort a note list by updatedAt descending. -/
def sortByUpdated (l : List Note) : List Note :=
  l.foldr insertByUpdated []

/-- The ordering property the spec claims: whenever one note has a
strictly larger updatedAt than another, it appears earlier.  Stated
contrapositively as a Pairwise relation: every later note has an
updatedAt that is at most the earlier one's. -/
def SortedByUpdatedDesc (l : List Note) : Prop :=
  l.Pairwise (fun a b => b.updatedAt ≤ a.updatedAt)

instance (l : List Note) : Decidable (SortedByUpdatedDesc l) :=
  List.instDecidablePairwise l

/-! ## Repository operations (app.js lines 127-220) -/

/-- Object.assign(note, patch): fields present in the patch overwrite the
corresponding note fields. -/
def applyPatch (p : Patch) (n : Note) : Note :=
  { n with
    title := p.title.getD n.title
    content := p.content.getD n.content
    starred := p.starred.getD n.starred
    coverImage := p.coverImage.getD n.coverImage
    coverPosition := (p.coverPosition.map some).getD n.coverPosition }

/-- The in-place mutation updateNoteFields applies to the found note:
merge the patch, bump updatedAt to the current time, and recompute tags
from the (new) content exactly when the patch carried a content field. -/
def updatedNote (now : Nat) (p : Patch) (n : Note) : Note :=
  let n1 := applyPatch p n
  let n2 := { n1 with updatedAt := now }
  if p.content.isSome then { n2 with tags := extractTags n2.content } else n2

/-- Replace the first note whose id matches by applying f to it (the JS
code mutates the object returned by Array.prototype.find, which is the
first match).  If no note matches, the list is unchanged. -/
def replaceFirst (f : Note → Note) (id : String) : List Note → List Note
  | [] => []
  | n :: ns => if n.id == id then f n :: ns else n :: replaceFirst f id ns

/-- Remove the first note whose id matches (findIndex followed by
splice(index, 1)).  If no note matches, the list is unchanged. -/
def removeFirst (id : String) : List Note → List Note
  | [] => []
  | n :: ns => if n.id == id then ns else n :: removeFirst id ns

/-- createNote (app.js lines 163-179): build a fresh note, unshift it at
the front of the collection (no re-sort), persist, return it.  The
generated id and Date.now() are explicit parameters. -/
def newNote (now : Nat) (nid : String) : Note :=
  { id := nid, title := "Untitled", content := "", tags := []
    createdAt := now, updatedAt := now, archived := false, starred := false
    coverImage := none, coverPosition := none, images := [] }

def createNote (now : Nat) (nid : String) (notes : List Note) : Note × List Note :=
  (newNote now nid, newNote now nid :: notes)

/-- updateNoteFields (app.js lines 184-201): false if the id is unknown;
otherwise mutate the found note, re-sort by updatedAt descending, persist,
return true. -/
def updateNoteFields (now : Nat) (id : String) (p : Patch) (notes : List Note) :
    Bool × List Note :=
  match notes.find? (fun n => n.id == id) with
  | none => (false, notes)
  | some _ => (true, sortByUpdated (replaceFirst (updatedNote now p) id notes))

/-- deleteNote (app.js lines 206-213): findIndex returning -1 is exactly
the case where no note matches; otherwise splice out the first match. -/
def deleteNote (id : String) (notes : List Note) : Bool × List Note :=
  if (notes.find? (fun n => n.id == id)).isSome then (true, removeFirst id notes)
  else (false, notes)

/-- getNoteById (app.js lines 218-220). -/
def getNoteById (id : String) (notes : List Note) : Option Note :=
  notes.find? (fun n => n.id == id)

/-! ## Persistence backing (app.js lines 140-158)

saveNotes serializes the whole collection into LocalStorage and returns a
success boolean; on failure it shows a toast and returns false, leaving
the previously stored data in place.  The storage cell is the stored
field of a Repo; whether setItem succeeds is an explicit oracle.  Every
repository operation calls saveNotes as its final step and discards the
returned boolean. -/

structure Repo where
  notes : List Note
  stored : List Note
deriving DecidableEq

/-- saveNotes: on success the storage cell now holds the collection; on
failure it is untouched.  Returns the success boolean. -/
def saveNotesR (ok : Bool) (r : Repo) : Bool × Repo :=
  if ok then (true, { r with stored := r.notes }) else (false, r)

/-- createNote including its saveNotes call (result of saveNotes
discarded, as in the source). -/
def createNoteR (ok : Bool) (now : Nat) (nid : String) (r : Repo) : Note × Repo :=
  let (n, notes1) := createNote now nid r.notes
  (n, (saveNotesR ok { r with notes := notes1 }).2)

/-- updateNoteFields including its saveNotes call.  When the id is
unknown the function returns before reaching saveNotes, so storage is not
touched. -/
def updateNoteFieldsR (ok : Bool) (now : Nat) (id : String) (p : Patch) (r : Repo) :
    Bool × Repo :=
  let (b, notes1) := updateNoteFields now id p r.notes
  if b then (b, (saveNotesR ok { r with notes := notes1 }).2) else (b, r)

/-- deleteNote including its saveNotes call; same early-return shape. -/
def deleteNoteR (ok : Bool) (id : String) (r : Repo) : Bool × Repo :=
  let (b, notes1) := deleteNote id r.notes
  if b then (b, (saveNotesR ok { r with notes := notes1 }).2) else (b, r)

/-! ## Import merge (app.js lines 1145-1190)

After the file is parsed and checked to be an array, the merge loop runs
against a Set of the ids present before the import: a record whose id is
in that set replaces the first existing note with that id in place; any
other record is pushed at the back.  Counters for merged and added records
are kept, the collection is re-sorted and persisted, and the counters are
reported in a toast. -/

/-- One iteration of the imported.forEach body, carrying the current
collection and the (added, merged) counters. -/
def mergeStep (existingIds : List String) (acc : List Note × Nat × Nat) (r : Note) :
    List Note × Nat × Nat :=
  if existingIds.contains r.id then
    (replaceFirst (fun _ => r) r.id acc.1, acc.2.1, acc.2.2 + 1)
  else
    (acc.1 ++ [r], acc.2.1 + 1, acc.2.2)

/-- handleImport's merge (post-parse): returns the re-sorted collection
and the (added, merged) counts it reports. -/
def handleImport (imported : List Note) (notes : List Note) :
    List Note × Nat × Nat :=
  let existingIds := notes.map Note.id
  let acc := imported.foldl (mergeStep existingIds) (notes, 0, 0)
  (sortByUpdated acc.1, acc.2.1, acc.2.2)

/-- handleImport including its saveNotes call. -/
def handleImportR (ok : Bool) (imported : List Note) (r : Repo) :
    (Nat × Nat) × Repo :=
  let (notes1, added, merged) := handleImport imported r.notes
  ((added, merged), (saveNotesR ok { r with notes := notes1 }).2)

/-! ## Session state (the state object, app.js lines 10-24) and the
handlers the claims are about. -/

structure AppState where
  notes : List Note
  activeId : Option String
  openTabs : List String
  filterQuery : String
  filterTag : Option String
  undoStack : List Snapshot
  redoStack : List Snapshot
deriving DecidableEq

/-- ASCII toLowerCase. -/
def lowerStr (s : String) : String := ⟨s.data.map Char.toLower⟩

/-- String.prototype.includes: the needle occurs contiguously in the
haystack. -/
def occursAtFront : List Char → List Char → Bool
  | [], _ => true
  | _ :: _, [] => false
  | n :: ns, h :: hs => n == h && occursAtFront ns hs

def occursIn (needle hay : List Char) : Bool :=
  match hay with
  | [] => occursAtFront needle []
  | _ :: hs => occursAtFront needle hay || occursIn needle hs

def includesStr (hay needle : String) : Bool := occursIn needle.data hay.data

/-- getFilteredNotes (app.js lines 335-355): drop archived notes, then
intersect with a case-insensitive substring match on title or content when
the query is non-empty (JS truthiness of the query string), then with tag
membership when a tag filter is set. -/
def getFilteredNotes (s : AppState) : List Note :=
  let f1 := s.notes.filter (fun n => !n.archived)
  let f2 :=
    if s.filterQuery = "" then f1
    else
      let q := lowerStr s.filterQuery
      f1.filter (fun n => includesStr (lowerStr n.title) q || includesStr (lowerStr n.content) q)
  match s.filterTag with
  | none => f2
  | some t => f2.filter (fun n => n.tags.contains t)

/-- saveUndoState (app.js lines 1204-1227): no-op without an active note;
otherwise push a snapshot of the active note at the back of the undo
stack, drop the front element when the length exceeds 50, and clear the
redo stack. -/
def saveUndoState (now : Nat) (s : AppState) : AppState :=
  match s.activeId with
  | none => s
  | some aid =>
    match getNoteById aid s.notes with
    | none => s
    | some note =>
      let snap : Snapshot := ⟨note.id, note.title, note.content, now⟩
      let stack := s.undoStack ++ [snap]
      let stack := if stack.length > 50 then stack.tail else stack
      { s with undoStack := stack, redoStack := [] }

/-- handleUndo (app.js lines 1232-1258): no-op without an active note or
with an empty undo stack or when the active note cannot be found; else
push the active note's current title/content on the redo stack, pop the
most recent undo snapshot, and write its title/content back through
updateNoteFields (which bumps updatedAt, recomputes tags and re-sorts). -/
def handleUndo (now : Nat) (s : AppState) : AppState :=
  match s.activeId with
  | none => s
  | some aid =>
    match s.undoStack.getLast? with
    | none => s
    | some prev =>
      match getNoteById aid s.notes with
      | none => s
      | some note =>
        let s1 := { s with
          redoStack := s.redoStack ++ [(⟨note.id, note.title, note.content, now⟩ : Snapshot)]
          undoStack := s.undoStack.dropLast }
        let notes1 := (updateNoteFields now prev.id
          { title := some prev.title, content := some prev.content } s1.notes).2
        { s1 with notes := notes1 }

/-- handleRedo (app.js lines 1263-1289): symmetric to handleUndo, with no
50-entry cap on the push onto the undo stack. -/
def handleRedo (now : Nat) (s : AppState) : AppState :=
  match s.activeId with
  | none => s
  | some aid =>
    match s.redoStack.getLast? with
    | none => s
    | some nxt =>
      match getNoteById aid s.notes with
      | none => s
      | some note =>
        let s1 := { s with
          undoStack := s.undoStack ++ [(⟨note.id, note.title, note.content, now⟩ : Snapshot)]
          redoStack := s.redoStack.dropLast }
        let notes1 := (updateNoteFields now nxt.id
          { title := some nxt.title, content := some nxt.content } s1.notes).2
        { s1 with notes := notes1 }

/-- handleDeleteNote (app.js lines 878-902), modelled past the DOM
confirm() dialog via the confirmed flag: a falsy id (null is passed as the
empty string) or an unknown id or a declined dialog is a no-op; otherwise
the note is deleted and, when it was the active one, the first filtered
note (if any) becomes active.  The open tabs are not touched. -/
def handleDeleteNote (confirmed : Bool) (id : String) (s : AppState) : AppState :=
  if id = "" then s
  else
    match getNoteById id s.notes with
    | none => s
    | some _ =>
      if !confirmed then s
      else
        let wasActive := s.activeId = some id
        let s1 := { s with notes := (deleteNote id s.notes).2 }
        if wasActive then
          { s1 with activeId := (getFilteredNotes s1).head?.map Note.id }
        else s1

/-! ## Lemmas about the sort -/

theorem mem_insertByUpdated {a n : Note} {l : List Note} :
    a ∈ insertByUpdated n l ↔ a = n ∨ a ∈ l := by
  induction l with
  | nil => simp [insertByUpdated]
  | cons m ms ih =>
    unfold insertByUpdated
    split
    · simp
    · simp only [List.mem_cons, ih]
      tauto

theorem pairwise_insertByUpdated {n : Note} {l : List Note}
    (h : SortedByUpdatedDesc l) : SortedByUpdatedDesc (insertByUpdated n l) := by
  induction l with
  | nil => simp [insertByUpdated, SortedByUpdatedDesc]
  | cons m ms ih =>
    unfold SortedByUpdatedDesc at h ⊢
    rw [List.pairwise_cons] at h
    unfold insertByUpdated
    split
    · rename_i hle
      rw [List.pairwise_cons]
      constructor
      · intro b hb
        rcases List.mem_cons.mp hb with rfl | hb
        · exact hle
        · exact le_trans (h.1 b hb) hle
      · exact List.pairwise_cons.mpr h
    · rename_i hgt
      push_neg at hgt
      rw [List.pairwise_cons]
      constructor
      · intro b hb
        rcases mem_insertByUpdated.mp hb with rfl | hb
        · exact le_of_lt hgt
        · exact h.1 b hb
      · exact ih h.2

theorem sortByUpdated_sorted (l : List Note) :
    SortedByUpdatedDesc (sortByUpdated l) := by
  induction l with
  | nil => simp [sortByUpdated, SortedByUpdatedDesc]
  | cons m ms ih => exact pairwise_insertByUpdated ih

theorem mem_sortByUpdated {a : Note} {l : List Note} :
    a ∈ sortByUpdated l ↔ a ∈ l := by
  induction l with
  | nil => simp [sortByUpdated]
  | cons m ms ih =>
    show a ∈ insertByUpdated m (sortByUpdated ms) ↔ _
    rw [mem_insertByUpdated, ih]
    simp

theorem length_insertByUpdated (n : Note) (l : List Note) :
    (insertByUpdated n l).length = l.length + 1 := by
  induction l with
  | nil => rfl
  | cons m ms ih =>
    unfold insertByUpdated
    split
    · simp
    · simp [ih]

theorem length_sortByUpdated (l : List Note) :
    (sortByUpdated l).length = l.length := by
  induction l with
  | nil => rfl
  | cons m ms ih =>
    show (insertByUpdated m (sortByUpdated ms)).length = _
    rw [length_insertByUpdated, ih]
    rfl

/-! ## Lemmas about replaceFirst and removeFirst -/

theorem length_replaceFirst (f : Note → Note) (id : String) (l : List Note) :
    (replaceFirst f id l).length = l.length := by
  induction l with
  | nil => rfl
  | cons n ns ih =>
    unfold replaceFirst
    split
    · simp
    · simp [ih]

theorem mem_replaceFirst {f : Note → Note} {id : String} {a : Note} {l : List Note}
    (h : a ∈ replaceFirst f id l) : a ∈ l ∨ ∃ m ∈ l, a = f m := by
  induction l with
  | nil => simp [replaceFirst] at h
  | cons n ns ih =>
    unfold replaceFirst at h
    split at h
    · rcases List.mem_cons.mp h with rfl | h
      · exact Or.inr ⟨n, by simp, rfl⟩
      · exact Or.inl (List.mem_cons_of_mem _ h)
    · rcases List.mem_cons.mp h with rfl | h
      · exact Or.inl (List.mem_cons_self _ _)
      · rcases ih h with h | ⟨m, hm, rfl⟩
        · exact Or.inl (List.mem_cons_of_mem _ h)
        · exact Or.inr ⟨m, List.mem_cons_of_mem _ hm, rfl⟩

theorem replaceFirst_find_mem {f : Note → Note} {id : String} {m : Note}
    {l : List Note} (h : l.find? (fun n => n.id == id) = some m) :
    f m ∈ replaceFirst f id l := by
  induction l with
  | nil => simp at h
  | cons n ns ih =>
    unfold replaceFirst
    cases hn : (n.id == id) with
    | true =>
      simp only [List.find?_cons, hn] at h
      injection h with h
      subst h
      simp [hn]
    | false =>
      simp only [List.find?_cons, hn] at h
      simp only [hn, Bool.false_eq_true, if_false]
      exact List.mem_cons_of_mem _ (ih h)

theorem mem_replaceFirst_of_ne {f : Note → Note} {id : String} {a : Note}
    {l : List Note} (ha : a ∈ l) (hne : ¬ a.id = id) :
    a ∈ replaceFirst f id l := by
  induction l with
  | nil => simp at ha
  | cons n ns ih =>
    unfold replaceFirst
    rcases List.mem_cons.mp ha with rfl | ha
    · have : (a.id == id) = false := by simp [hne]
      simp [this]
    · split
      · exact List.mem_cons_of_mem _ ha
      · exact List.mem_cons_of_mem _ (ih ha)

theorem replaceFirst_eq_of_nodup {f : Note → Note} {id : String} {m a : Note}
    {l : List Note} (hnd : (l.map Note.id).Nodup)
    (hf : l.find? (fun n => n.id == id) = some m)
    (ha : a ∈ replaceFirst f id l) (haid : a.id = id) :
    a = f m := by
  induction l with
  | nil => simp at hf
  | cons n ns ih =>
    rw [List.map_cons, List.nodup_cons] at hnd
    cases hn : (n.id == id) with
    | true =>
      simp only [List.find?_cons, hn] at hf
      injection hf with hf
      unfold replaceFirst at ha
      simp only [hn, if_true] at ha
      rcases List.mem_cons.mp ha with rfl | ha
      · rw [hf]
      · exfalso
        have hnid : n.id = id := by simpa using hn
        exact hnd.1 (by
          rw [hnid, ← haid]
          exact List.mem_map_of_mem Note.id ha)
    | false =>
      simp only [List.find?_cons, hn] at hf
      unfold replaceFirst at ha
      simp only [hn, Bool.false_eq_true, if_false] at ha
      rcases List.mem_cons.mp ha with rfl | ha
      · exfalso
        rw [haid] at hn
        simp at hn
      · exact ih hnd.2 hf ha

theorem removeFirst_sublist (id : String) (l : List Note) :
    (removeFirst id l).Sublist l := by
  induction l with
  | nil => simp [removeFirst]
  | cons n ns ih =>
    unfold removeFirst
    split
    · exact List.sublist_cons_self _ _
    · exact ih.cons₂ n

theorem pairwise_removeFirst {id : String} {l : List Note}
    (h : SortedByUpdatedDesc l) : SortedByUpdatedDesc (removeFirst id l) :=
  List.Pairwise.sublist (removeFirst_sublist id l) h

/-! ## Lemmas about the per-note mutation of updateNoteFields -/

theorem updatedNote_id (now : Nat) (p : Patch) (n : Note) :
    (updatedNote now p n).id = n.id := by
  unfold updatedNote applyPatch
  split <;> rfl

theorem updatedNote_updatedAt (now : Nat) (p : Patch) (n : Note) :
    (updatedNote now p n).updatedAt = now := by
  unfold updatedNote applyPatch
  split <;> rfl

theorem updatedNote_tags_of_none {p : Patch} (h : p.content = none)
    (now : Nat) (n : Note) : (updatedNote now p n).tags = n.tags := by
  simp [updatedNote, applyPatch, h]

theorem updatedNote_tags_of_some {p : Patch} {c : String} (h : p.content = some c)
    (now : Nat) (n : Note) : (updatedNote now p n).tags = extractTags c := by
  simp [updatedNote, applyPatch, h]

theorem updatedNote_title_of_some {p : Patch} {t : String} (h : p.title = some t)
    (now : Nat) (n : Note) : (updatedNote now p n).title = t := by
  unfold updatedNote applyPatch
  split <;> simp [h]

theorem updatedNote_content_of_some {p : Patch} {c : String} (h : p.content = some c)
    (now : Nat) (n : Note) : (updatedNote now p n).content = c := by
  simp [updatedNote, applyPatch, h]

theorem updatedNote_content_of_none {p : Patch} (h : p.content = none)
    (now : Nat) (n : Note) : (updatedNote now p n).content = n.content := by
  simp [updatedNote, applyPatch, h]

/-- A title/content-only patch, as pushed by autosave, undo and redo,
leaves every field outside title, content, tags, updatedAt untouched. -/
theorem updatedNote_tc_frame (now : Nat) (t c : String) (n : Note) :
    (updatedNote now { title := some t, content := some c } n).id = n.id ∧
    (updatedNote now { title := some t, content := some c } n).createdAt = n.createdAt ∧
    (updatedNote now { title := some t, content := some c } n).archived = n.archived ∧
    (updatedNote now { title := some t, content := some c } n).starred = n.starred ∧
    (updatedNote now { title := some t, content := some c } n).coverImage = n.coverImage ∧
    (updatedNote now { title := some t, content := some c } n).images = n.images := by
  simp [updatedNote, applyPatch]

/-- Frame property for a whole title/content update through the
repository: every note of the result agrees with some note of the input
on all fields outside title, content, tags and updatedAt. -/
theorem updateNoteFields_frame (now : Nat) (id t c : String) (notes : List Note) :
    ∀ n' ∈ (updateNoteFields now id { title := some t, content := some c } notes).2,
      ∃ n ∈ notes, n'.id = n.id ∧ n'.createdAt = n.createdAt ∧
        n'.archived = n.archived ∧ n'.starred = n.starred ∧
        n'.coverImage = n.coverImage ∧ n'.images = n.images := by
  intro n' hn'
  unfold updateNoteFields at hn'
  cases hf : notes.find? (fun n => n.id == id) with
  | none =>
    rw [hf] at hn'
    exact ⟨n', hn', rfl, rfl, rfl, rfl, rfl, rfl⟩
  | some m =>
    rw [hf] at hn'
    simp only at hn'
    rcases mem_replaceFirst (mem_sortByUpdated.mp hn') with h | ⟨u, hu, rfl⟩
    · exact ⟨n', h, rfl, rfl, rfl, rfl, rfl, rfl⟩
    · obtain ⟨h1, h2, h3, h4, h5, h6⟩ := updatedNote_tc_frame now t c u
      exact ⟨u, hu, h1, h2, h3, h4, h5, h6⟩

/-! ## Lemmas about the import merge fold -/

/-- Every id of the given list is carried by some note of the
collection. -/
def IdsPresent (ids : List String) (l : List Note) : Prop :=
  ∀ i ∈ ids, ∃ n ∈ l, n.id = i

theorem replaceFirst_const_mem {r : Note} {id : String} {l : List Note}
    (h : ∃ n ∈ l, n.id = id) : r ∈ replaceFirst (fun _ => r) id l := by
  obtain ⟨n, hn, hid⟩ := h
  have hsome : (l.find? (fun n => n.id == id)).isSome := by
    rw [List.find?_isSome]
    exact ⟨n, hn, by simp [hid]⟩
  obtain ⟨m, hm⟩ := Option.isSome_iff_exists.mp hsome
  exact replaceFirst_find_mem hm

theorem mergeStep_length (eids : List String) (acc : List Note × Nat × Nat)
    (r : Note) :
    (mergeStep eids acc r).1.length
      = acc.1.length + (if eids.contains r.id then 0 else 1) := by
  unfold mergeStep
  split
  · simp [length_replaceFirst, *]
  · simp [*]

theorem mergeFold_length (eids : List String) (imported : List Note) :
    ∀ acc : List Note × Nat × Nat,
      ((imported.foldl (mergeStep eids) acc).1).length
        = acc.1.length
          + (imported.filter (fun rec => !(eids.contains rec.id))).length := by
  induction imported with
  | nil => intro acc; simp
  | cons r rest ih =>
    intro acc
    rw [List.foldl_cons, ih, mergeStep_length, List.filter_cons]
    by_cases hc : r.id ∈ eids
    · simp [hc]
    · simp [hc]
      omega

theorem mergeFold_counts (eids : List String) (imported : List Note) :
    ∀ acc : List Note × Nat × Nat,
      (imported.foldl (mergeStep eids) acc).2.1
        = acc.2.1 + (imported.filter (fun rec => !(eids.contains rec.id))).length ∧
      (imported.foldl (mergeStep eids) acc).2.2
        = acc.2.2 + (imported.filter (fun rec => eids.contains rec.id)).length := by
  induction imported with
  | nil => intro acc; simp
  | cons r rest ih =>
    intro acc
    rw [List.foldl_cons]
    obtain ⟨ih1, ih2⟩ := ih (mergeStep eids acc r)
    rw [ih1, ih2, List.filter_cons, List.filter_cons]
    unfold mergeStep
    by_cases hc : r.id ∈ eids
    · simp [hc]
      omega
    · simp [hc]
      omega

theorem mergeStep_preserve {eids : List String} {acc : List Note × Nat × Nat}
    {r a : Note} (ha : a ∈ acc.1) (hne : ¬ r.id = a.id) :
    a ∈ (mergeStep eids acc r).1 := by
  unfold mergeStep
  split
  · exact mem_replaceFirst_of_ne ha (fun h => hne h.symm)
  · exact List.mem_append_left _ ha

theorem mergeFold_preserve (eids : List String) (imported : List Note) :
    ∀ acc : List Note × Nat × Nat, ∀ a ∈ acc.1,
      (∀ rec ∈ imported, ¬ rec.id = a.id) →
      a ∈ (imported.foldl (mergeStep eids) acc).1 := by
  induction imported with
  | nil => intro acc a ha _; simpa using ha
  | cons r rest ih =>
    intro acc a ha hni
    rw [List.foldl_cons]
    exact ih _ a (mergeStep_preserve ha (hni r (by simp)))
      (fun rec hrec => hni rec (List.mem_cons_of_mem _ hrec))

theorem mergeStep_idsPresent {eids ids : List String}
    {acc : List Note × Nat × Nat} {r : Note} (h : IdsPresent ids acc.1) :
    IdsPresent ids (mergeStep eids acc r).1 := by
  intro i hi
  obtain ⟨n, hn, hnid⟩ := h i hi
  unfold mergeStep
  split
  · by_cases hir : i = r.id
    · exact ⟨r, replaceFirst_const_mem ⟨n, hn, by rw [hnid, hir]⟩, hir.symm⟩
    · exact ⟨n, mem_replaceFirst_of_ne hn (by rw [hnid]; exact hir), hnid⟩
  · exact ⟨n, List.mem_append_left _ hn, hnid⟩

theorem mergeFold_mem_imported (eids : List String) (imported : List Note)
    (hnd : (imported.map Note.id).Nodup) :
    ∀ acc : List Note × Nat × Nat, IdsPresent eids acc.1 →
      ∀ rec ∈ imported, rec ∈ (imported.foldl (mergeStep eids) acc).1 := by
  induction imported with
  | nil => intro acc _ rec hrec; simp at hrec
  | cons r rest ih =>
    rw [List.map_cons, List.nodup_cons] at hnd
    intro acc hpres rec hrec
    rw [List.foldl_cons]
    rcases List.mem_cons.mp hrec with rfl | hrec
    · refine mergeFold_preserve eids rest _ rec ?_ ?_
      · unfold mergeStep
        split
        · rename_i hc
          have hmem : rec.id ∈ eids := by
            simpa using hc
          exact replaceFirst_const_mem (hpres rec.id hmem)
        · simp
      · intro q hq hqid
        exact hnd.1 (hqid ▸ List.mem_map_of_mem Note.id hq)
    · exact ih hnd.2 _ (mergeStep_idsPresent hpres) rec hrec

/-! ## A lemma about filtering when everything is archived -/

theorem getFilteredNotes_all_archived {s : AppState}
    (h : ∀ m ∈ s.notes, m.archived) : getFilteredNotes s = [] := by
  unfold getFilteredNotes
  have h1 : s.notes.filter (fun n => !n.archived) = [] := by
    rw [List.filter_eq_nil_iff]
    intro a ha
    simp [h a ha]
  rw [h1]
  cases s.filterTag <;> split <;> simp

/-! ## The claims -/

/-- Claim C1, counterexample: the claimed invariant quantifies over every
starting collection, but deleteNote removes without re-sorting, so
deleting from an unsorted collection leaves it unsorted: delete the note
with id c from [c at 3, a at 1, b at 2] and the result [a at 1, b at 2]
puts the strictly newer b after a. -/
theorem claim1_counterexample :
    ¬ SortedByUpdatedDesc
      (deleteNote "c" [newNote 3 "c", newNote 1 "a", newNote 2 "b"]).2 := by
  decide

/-- Claim C1, amended: updateNoteFields and the import merge re-sort, so
they restore the ordering from any sorted starting collection (update on
an unknown id leaves the collection untouched, hence the sortedness
hypothesis; import needs no hypothesis at all); deleteNote preserves an
already sorted collection; createNote inserts at the front without
re-sorting, so it preserves sortedness only when the creation time is at
least every existing updatedAt. -/
theorem claim1_sort_invariant (now : Nat) (nid id : String) (p : Patch)
    (notes imported : List Note) (hs : SortedByUpdatedDesc notes) :
    SortedByUpdatedDesc (updateNoteFields now id p notes).2 ∧
    SortedByUpdatedDesc (deleteNote id notes).2 ∧
    ((∀ n ∈ notes, n.updatedAt ≤ now) →
      SortedByUpdatedDesc (createNote now nid notes).2) ∧
    SortedByUpdatedDesc (handleImport imported notes).1 := by
  refine ⟨?_, ?_, ?_, ?_⟩
  · unfold updateNoteFields
    cases hf : notes.find? (fun n => n.id == id) with
    | none => exact hs
    | some m => exact sortByUpdated_sorted _
  · unfold deleteNote
    split
    · exact pairwise_removeFirst hs
    · exact hs
  · intro hle
    unfold createNote SortedByUpdatedDesc
    rw [List.pairwise_cons]
    exact ⟨fun b hb => hle b hb, hs⟩
  · exact sortByUpdated_sorted _

/-- Claim C1, witness for the amended theorem at a concrete sorted
collection. -/
theorem claim1_witness :
    SortedByUpdatedDesc
      (updateNoteFields 9 "b" { title := some "x" }
        [newNote 2 "b", newNote 1 "a"]).2 ∧
    SortedByUpdatedDesc (deleteNote "b" [newNote 2 "b", newNote 1 "a"]).2 ∧
    SortedByUpdatedDesc (createNote 9 "c" [newNote 2 "b", newNote 1 "a"]).2 := by
  obtain ⟨h1, h2, h3, _⟩ :=
    claim1_sort_invariant 9 "c" "b" { title := some "x" }
      [newNote 2 "b", newNote 1 "a"] [] (by decide)
  exact ⟨h1, h2, h3 (by decide)⟩

/-- Claim C2: updateNoteFields recomputes the tags from the content
exactly when the patch carried a content field: a patch without content
leaves the tags of the patched note unchanged, and a patch with content c
makes them extractTags c, regardless of the prior tags. -/
theorem claim2_update_tags (now : Nat) (id : String) (p : Patch)
    (notes : List Note) (m : Note)
    (hnd : (notes.map Note.id).Nodup)
    (hf : notes.find? (fun n => n.id == id) = some m) :
    (p.content = none →
      ∀ n' ∈ (updateNoteFields now id p notes).2, n'.id = id →
        n'.tags = m.tags) ∧
    (∀ c, p.content = some c →
      ∀ n' ∈ (updateNoteFields now id p notes).2, n'.id = id →
        n'.tags = extractTags c) ∧
    (∃ n' ∈ (updateNoteFields now id p notes).2, n'.id = id) := by
  have hpost : (updateNoteFields now id p notes).2
      = sortByUpdated (replaceFirst (updatedNote now p) id notes) := by
    unfold updateNoteFields
    rw [hf]
  have hmid : m.id = id := by
    have := List.find?_some hf
    simpa using this
  refine ⟨?_, ?_, ?_⟩
  · intro hc n' hn' hid
    rw [hpost] at hn'
    have := replaceFirst_eq_of_nodup hnd hf (mem_sortByUpdated.mp hn') hid
    rw [this, updatedNote_tags_of_none hc]
  · intro c hc n' hn' hid
    rw [hpost] at hn'
    have := replaceFirst_eq_of_nodup hnd hf (mem_sortByUpdated.mp hn') hid
    rw [this, updatedNote_tags_of_some hc]
  · refine ⟨updatedNote now p m, ?_, ?_⟩
    · rw [hpost]
      exact mem_sortByUpdated.mpr (replaceFirst_find_mem hf)
    · rw [updatedNote_id, hmid]

/-- Claim C2, witness: patching only the title of a two-note collection
leaves the patched note's tags unchanged; patching its content replaces
them by the extraction from the new content. -/
theorem claim2_witness :
    (∀ n' ∈ (updateNoteFields 9 "a" { title := some "x" }
        [{ newNote 1 "a" with tags := ["zz"] }, newNote 2 "b"]).2,
      n'.id = "a" → n'.tags = ["zz"]) ∧
    (∀ n' ∈ (updateNoteFields 9 "a" { content := some "#ab  #cd" }
        [{ newNote 1 "a" with tags := ["zz"] }, newNote 2 "b"]).2,
      n'.id = "a" → n'.tags = ["ab", "cd"]) := by
  constructor
  · have h := claim2_update_tags 9 "a" { title := some "x" }
      [{ newNote 1 "a" with tags := ["zz"] }, newNote 2 "b"]
      { newNote 1 "a" with tags := ["zz"] } (by decide) (by decide)
    exact h.1 rfl
  · have h := claim2_update_tags 9 "a" { content := some "#ab  #cd" }
      [{ newNote 1 "a" with tags := ["zz"] }, newNote 2 "b"]
      { newNote 1 "a" with tags := ["zz"] } (by decide) (by decide)
    intro n' hn' hid
    rw [h.2.1 "#ab  #cd" rfl n' hn' hid]
    decide

/-- Claim C3, counterexample: the claim asserts that two matching tokens
separated by a single whitespace character are both extracted, but the
first match consumes the separating whitespace, so in "#ab #cd" only ab
is found. -/
theorem claim3_counterexample :
    extractTags "#ab #cd" = ["ab"] ∧ "cd" ∉ extractTags "#ab #cd" := by
  decide

/-- Claim C3, amended: extractTags is a pure function returning the
lowercased, set-deduplicated list of matching tokens in first-seen order;
the spec example yields work and ideas_2; two matching tokens separated
by at least two whitespace characters are both extracted, but with a
single separating whitespace character only the first is extracted,
because the match consumes the separator. -/
theorem claim3_extract_tags :
    extractTags "hello #Work and #ideas_2 done" = ["work", "ideas_2"] ∧
    extractTags "#ab  #cd" = ["ab", "cd"] ∧
    extractTags "#ab #cd" = ["ab"] ∧
    extractTags "#AB  #ab" = ["ab"] ∧
    extractTags "todo #work\n#work again" = ["work"] := by
  decide

/-- Claim C8, counterexample: updating with content "#a #b" does not set
the tags to the set containing a and b — both tokens have fewer than the
2 characters the regex requires, so the tags become empty. -/
theorem claim8_counterexample :
    ¬ ∃ n' ∈ (updateNoteFields 9 "a" { content := some "#a #b" }
        [{ newNote 1 "a" with tags := ["zz"] }]).2,
      n'.id = "a" ∧ "a" ∈ n'.tags ∧ "b" ∈ n'.tags := by
  decide

/-- Claim C8, amended: for every note id present in the collection and
every prior tags value, updating with content c sets that note's tags to
extractTags c; for c = "#a #b" that is the empty list, because the
one-character tokens do not match the 2-to-24-character tag pattern,
while a content with two-character tags separated by two spaces, such as
"#aa  #bb", yields exactly the set containing aa and bb. -/
theorem claim8_update_content_tags (now : Nat) (id : String)
    (notes : List Note) (m : Note)
    (hnd : (notes.map Note.id).Nodup)
    (hf : notes.find? (fun n => n.id == id) = some m) :
    (∀ n' ∈ (updateNoteFields now id { content := some "#a #b" } notes).2,
      n'.id = id → n'.tags = []) ∧
    (∀ n' ∈ (updateNoteFields now id { content := some "#aa  #bb" } notes).2,
      n'.id = id → n'.tags = ["aa", "bb"]) := by
  have h1 := (claim2_update_tags now id { content := some "#a #b" } notes m
    hnd hf).2.1 "#a #b" rfl
  have h2 := (claim2_update_tags now id { content := some "#aa  #bb" } notes m
    hnd hf).2.1 "#aa  #bb" rfl
  constructor
  · intro n' hn' hid
    rw [h1 n' hn' hid]
    decide
  · intro n' hn' hid
    rw [h2 n' hn' hid]
    decide

/-- Claim C8, witness at a one-note collection with prior tags zz: the
note resulting from the update is a member of the collection and its
tags, computed through the amended theorem, are empty. -/
theorem claim8_witness :
    ({ newNote 1 "a" with content := "#a #b", updatedAt := 9 } : Note)
      ∈ (updateNoteFields 9 "a" { content := some "#a #b" }
          [{ newNote 1 "a" with tags := ["zz"] }]).2 ∧
    ({ newNote 1 "a" with content := "#a #b", updatedAt := 9 } : Note).tags
      = [] := by
  refine ⟨by decide, ?_⟩
  exact (claim8_update_content_tags 9 "a" [{ newNote 1 "a" with tags := ["zz"] }]
    { newNote 1 "a" with tags := ["zz"] } (by decide) (by decide)).1
    ({ newNote 1 "a" with content := "#a #b", updatedAt := 9 } : Note)
    (by decide) (by decide)

/-- Claim C9: on an unknown id, updateNoteFields and deleteNote return
false, change no note and persist nothing (the storage cell of the Repo
is untouched because both functions return before their saveNotes
call). -/
theorem claim9_missing_entity (now : Nat) (id : String) (p : Patch)
    (ok : Bool) (r : Repo)
    (h : r.notes.find? (fun n => n.id == id) = none) :
    updateNoteFields now id p r.notes = (false, r.notes) ∧
    deleteNote id r.notes = (false, r.notes) ∧
    updateNoteFieldsR ok now id p r = (false, r) ∧
    deleteNoteR ok id r = (false, r) := by
  have h1 : updateNoteFields now id p r.notes = (false, r.notes) := by
    unfold updateNoteFields
    rw [h]
  have h2 : deleteNote id r.notes = (false, r.notes) := by
    unfold deleteNote
    rw [h]
    simp
  refine ⟨h1, h2, ?_, ?_⟩
  · unfold updateNoteFieldsR
    rw [h1]
    simp
  · unfold deleteNoteR
    rw [h2]
    simp

/-- Claim C9, witness: updating or deleting the id zz, absent from a
one-note collection, is a no-op returning false. -/
theorem claim9_witness :
    updateNoteFields 5 "zz" { title := some "x" } [newNote 1 "n1"]
      = (false, [newNote 1 "n1"]) ∧
    deleteNote "zz" [newNote 1 "n1"] = (false, [newNote 1 "n1"]) ∧
    updateNoteFieldsR true 5 "zz" { title := some "x" } ⟨[newNote 1 "n1"], []⟩
      = (false, ⟨[newNote 1 "n1"], []⟩) ∧
    deleteNoteR true "zz" ⟨[newNote 1 "n1"], []⟩
      = (false, ⟨[newNote 1 "n1"], []⟩) :=
  claim9_missing_entity 5 "zz" { title := some "x" } true
    ⟨[newNote 1 "n1"], []⟩ (by decide)

/-- Claim C10: the boolean returned by saveNotes is discarded by every
repository operation, so the in-memory result and the returned boolean
are the same whether the save succeeds or fails; with a failing save the
mutation is still applied in memory, updateNoteFields still returns true
on a present id, and the storage cell keeps its old contents. -/
theorem claim10_save_discarded (ok : Bool) (now : Nat) (nid id : String)
    (p : Patch) (r : Repo) :
    (createNoteR ok now nid r).1 = (createNote now nid r.notes).1 ∧
    (createNoteR ok now nid r).2.notes = (createNote now nid r.notes).2 ∧
    (updateNoteFieldsR ok now id p r).1 = (updateNoteFields now id p r.notes).1 ∧
    (updateNoteFieldsR ok now id p r).2.notes = (updateNoteFields now id p r.notes).2 ∧
    (deleteNoteR ok id r).1 = (deleteNote id r.notes).1 ∧
    (deleteNoteR ok id r).2.notes = (deleteNote id r.notes).2 ∧
    ((r.notes.find? (fun n => n.id == id)).isSome →
      (updateNoteFieldsR false now id p r).1 = true ∧
      (updateNoteFieldsR false now id p r).2.stored = r.stored ∧
      (deleteNoteR false id r).2.stored = r.stored) := by
  refine ⟨?_, ?_, ?_, ?_, ?_, ?_, ?_⟩
  · rfl
  · cases ok <;> rfl
  · unfold updateNoteFieldsR
    cases hf : r.notes.find? (fun n => n.id == id) with
    | none => simp [updateNoteFields, hf]
    | some m => cases ok <;> simp [updateNoteFields, hf, saveNotesR]
  · unfold updateNoteFieldsR
    cases hf : r.notes.find? (fun n => n.id == id) with
    | none => simp [updateNoteFields, hf]
    | some m => cases ok <;> simp [updateNoteFields, hf, saveNotesR]
  · unfold deleteNoteR deleteNote
    cases hf : (r.notes.find? (fun n => n.id == id)).isSome <;>
      cases ok <;> simp [hf, saveNotesR]
  · unfold deleteNoteR deleteNote
    cases hf : (r.notes.find? (fun n => n.id == id)).isSome <;>
      cases ok <;> simp [hf, saveNotesR]
  · intro hsome
    obtain ⟨m, hf⟩ := Option.isSome_iff_exists.mp hsome
    refine ⟨?_, ?_, ?_⟩
    · simp [updateNoteFieldsR, updateNoteFields, hf, saveNotesR]
    · simp [updateNoteFieldsR, updateNoteFields, hf, saveNotesR]
    · simp [deleteNoteR, deleteNote, hf, saveNotesR]

/-- Claim C10, witness: with a failing save on a one-note collection, an
update still mutates in memory, still reports true, and leaves storage
untouched. -/
theorem claim10_witness :
    (updateNoteFieldsR false 5 "n1" { title := some "x" }
      ⟨[newNote 1 "n1"], [newNote 1 "n1"]⟩).1 = true ∧
    (updateNoteFieldsR false 5 "n1" { title := some "x" }
      ⟨[newNote 1 "n1"], [newNote 1 "n1"]⟩).2.stored = [newNote 1 "n1"] :=
  by
  have h := (claim10_save_discarded false 5 "c" "n1" { title := some "x" }
    ⟨[newNote 1 "n1"], [newNote 1 "n1"]⟩).2.2.2.2.2.2 (by decide)
  exact ⟨h.1, h.2.1⟩

/-! ## Unfolding equations for the history and deletion handlers -/

theorem saveUndoState_noop_active {s : AppState} (h : s.activeId = none)
    (now : Nat) : saveUndoState now s = s := by
  unfold saveUndoState
  rw [h]

theorem saveUndoState_noop_note {s : AppState} {aid : String}
    (ha : s.activeId = some aid) (hg : getNoteById aid s.notes = none)
    (now : Nat) : saveUndoState now s = s := by
  unfold saveUndoState
  split
  · rfl
  · rename_i aid1 h1
    rw [h1] at ha
    injection ha with ha
    subst ha
    rw [hg]

theorem saveUndoState_eq {s : AppState} {aid : String} {note : Note}
    (ha : s.activeId = some aid) (hg : getNoteById aid s.notes = some note)
    (now : Nat) :
    saveUndoState now s =
      { s with
        undoStack :=
          if (s.undoStack
              ++ [(⟨note.id, note.title, note.content, now⟩ : Snapshot)]).length > 50
          then (s.undoStack
              ++ [(⟨note.id, note.title, note.content, now⟩ : Snapshot)]).tail
          else s.undoStack
              ++ [(⟨note.id, note.title, note.content, now⟩ : Snapshot)]
        redoStack := [] } := by
  unfold saveUndoState
  split
  · rename_i h0
    rw [h0] at ha
    simp at ha
  · rename_i aid1 h1
    rw [h1] at ha
    injection ha with ha
    subst ha
    rw [hg]

theorem handleUndo_noop_active {s : AppState} (h : s.activeId = none)
    (now : Nat) : handleUndo now s = s := by
  unfold handleUndo
  rw [h]

theorem handleUndo_noop_stack {s : AppState} (h : s.undoStack.getLast? = none)
    (now : Nat) : handleUndo now s = s := by
  unfold handleUndo
  split
  · rfl
  · rw [h]

theorem handleUndo_noop_note {s : AppState} {aid : String}
    (ha : s.activeId = some aid) (hg : getNoteById aid s.notes = none)
    (now : Nat) : handleUndo now s = s := by
  unfold handleUndo
  split
  · rfl
  · rename_i aid1 h1
    rw [h1] at ha
    injection ha with ha
    subst ha
    split
    · rfl
    · rw [hg]

theorem handleUndo_eq {s : AppState} {aid : String} {prev : Snapshot}
    {note : Note} (ha : s.activeId = some aid)
    (hl : s.undoStack.getLast? = some prev)
    (hg : getNoteById aid s.notes = some note) (now : Nat) :
    handleUndo now s =
      { s with
        redoStack := s.redoStack
          ++ [(⟨note.id, note.title, note.content, now⟩ : Snapshot)]
        undoStack := s.undoStack.dropLast
        notes := (updateNoteFields now prev.id
          { title := some prev.title, content := some prev.content } s.notes).2 } := by
  unfold handleUndo
  split
  · rename_i h0
    rw [h0] at ha
    simp at ha
  · rename_i aid1 h1
    rw [h1] at ha
    injection ha with ha
    subst ha
    split
    · rename_i h0
      rw [h0] at hl
      simp at hl
    · rename_i prev1 h2
      rw [h2] at hl
      injection hl with hl
      subst hl
      rw [hg]

theorem handleRedo_noop_active {s : AppState} (h : s.activeId = none)
    (now : Nat) : handleRedo now s = s := by
  unfold handleRedo
  rw [h]

theorem handleRedo_noop_stack {s : AppState} (h : s.redoStack.getLast? = none)
    (now : Nat) : handleRedo now s = s := by
  unfold handleRedo
  split
  · rfl
  · rw [h]

theorem handleRedo_noop_note {s : AppState} {aid : String}
    (ha : s.activeId = some aid) (hg : getNoteById aid s.notes = none)
    (now : Nat) : handleRedo now s = s := by
  unfold handleRedo
  split
  · rfl
  · rename_i aid1 h1
    rw [h1] at ha
    injection ha with ha
    subst ha
    split
    · rfl
    · rw [hg]

theorem handleRedo_eq {s : AppState} {aid : String} {nxt : Snapshot}
    {note : Note} (ha : s.activeId = some aid)
    (hl : s.redoStack.getLast? = some nxt)
    (hg : getNoteById aid s.notes = some note) (now : Nat) :
    handleRedo now s =
      { s with
        undoStack := s.undoStack
          ++ [(⟨note.id, note.title, note.content, now⟩ : Snapshot)]
        redoStack := s.redoStack.dropLast
        notes := (updateNoteFields now nxt.id
          { title := some nxt.title, content := some nxt.content } s.notes).2 } := by
  unfold handleRedo
  split
  · rename_i h0
    rw [h0] at ha
    simp at ha
  · rename_i aid1 h1
    rw [h1] at ha
    injection ha with ha
    subst ha
    split
    · rename_i h0
      rw [h0] at hl
      simp at hl
    · rename_i nxt1 h2
      rw [h2] at hl
      injection hl with hl
      subst hl
      rw [hg]

/-- Claim C4, counterexample: an undo bumps the restored note's updatedAt
to the current time through updateNoteFields, so updatedAt is not what it
was before the call. -/
theorem claim4_counterexample :
    ((handleUndo 100 (AppState.mk
        [{ newNote 10 "n1" with title := "t1", content := "c1" }]
        (some "n1") ["n1"] "" none
        [(⟨"n1", "t0", "c0", 1⟩ : Snapshot)] [])).notes.map Note.updatedAt)
    ≠ ([{ newNote 10 "n1" with title := "t1", content := "c1" }].map
        Note.updatedAt) := by
  decide

/-- Claim C4, amended: undo and redo never change starred, archived,
coverImage, images or createdAt of any note; but they write the snapshot
through updateNoteFields, which also recomputes the target note's tags
from the restored content and bumps its updatedAt to the current time.
undo pushes the current active-note state onto the redo stack, pops the
snapshot, and restores its title and content onto the note it names. -/
theorem claim4_undo_redo_frame (now : Nat) (s : AppState) :
    (∀ n' ∈ (handleUndo now s).notes, ∃ n ∈ s.notes,
      n'.id = n.id ∧ n'.createdAt = n.createdAt ∧ n'.archived = n.archived ∧
      n'.starred = n.starred ∧ n'.coverImage = n.coverImage ∧
      n'.images = n.images) ∧
    (∀ n' ∈ (handleRedo now s).notes, ∃ n ∈ s.notes,
      n'.id = n.id ∧ n'.createdAt = n.createdAt ∧ n'.archived = n.archived ∧
      n'.starred = n.starred ∧ n'.coverImage = n.coverImage ∧
      n'.images = n.images) ∧
    (∀ aid prev note, s.activeId = some aid →
      s.undoStack.getLast? = some prev →
      getNoteById aid s.notes = some note →
      (handleUndo now s).redoStack
        = s.redoStack ++ [(⟨note.id, note.title, note.content, now⟩ : Snapshot)] ∧
      (handleUndo now s).undoStack = s.undoStack.dropLast ∧
      (∀ m, getNoteById prev.id s.notes = some m →
        ∃ n' ∈ (handleUndo now s).notes,
          n'.id = m.id ∧ n'.title = prev.title ∧ n'.content = prev.content ∧
          n'.tags = extractTags prev.content ∧ n'.updatedAt = now)) := by
  refine ⟨?_, ?_, ?_⟩
  · intro n' hn'
    cases ha : s.activeId with
    | none =>
      rw [handleUndo_noop_active ha] at hn'
      exact ⟨n', hn', rfl, rfl, rfl, rfl, rfl, rfl⟩
    | some aid =>
      cases hl : s.undoStack.getLast? with
      | none =>
        rw [handleUndo_noop_stack hl] at hn'
        exact ⟨n', hn', rfl, rfl, rfl, rfl, rfl, rfl⟩
      | some prev =>
        cases hg : getNoteById aid s.notes with
        | none =>
          rw [handleUndo_noop_note ha hg] at hn'
          exact ⟨n', hn', rfl, rfl, rfl, rfl, rfl, rfl⟩
        | some note =>
          rw [handleUndo_eq ha hl hg] at hn'
          exact updateNoteFields_frame now prev.id prev.title prev.content
            s.notes n' hn'
  · intro n' hn'
    cases ha : s.activeId with
    | none =>
      rw [handleRedo_noop_active ha] at hn'
      exact ⟨n', hn', rfl, rfl, rfl, rfl, rfl, rfl⟩
    | some aid =>
      cases hl : s.redoStack.getLast? with
      | none =>
        rw [handleRedo_noop_stack hl] at hn'
        exact ⟨n', hn', rfl, rfl, rfl, rfl, rfl, rfl⟩
      | some nxt =>
        cases hg : getNoteById aid s.notes with
        | none =>
          rw [handleRedo_noop_note ha hg] at hn'
          exact ⟨n', hn', rfl, rfl, rfl, rfl, rfl, rfl⟩
        | some note =>
          rw [handleRedo_eq ha hl hg] at hn'
          exact updateNoteFields_frame now nxt.id nxt.title nxt.content
            s.notes n' hn'
  · intro aid prev note ha hl hg
    rw [handleUndo_eq ha hl hg]
    refine ⟨rfl, rfl, ?_⟩
    intro m hm
    have hm' : s.notes.find? (fun n => n.id == prev.id) = some m := hm
    refine ⟨updatedNote now
      { title := some prev.title, content := some prev.content } m, ?_, ?_⟩
    · show _ ∈ (updateNoteFields now prev.id
        { title := some prev.title, content := some prev.content } s.notes).2
      unfold updateNoteFields
      rw [hm']
      exact mem_sortByUpdated.mpr (replaceFirst_find_mem hm')
    · exact ⟨updatedNote_id now _ m,
        updatedNote_title_of_some rfl now m,
        updatedNote_content_of_some rfl now m,
        updatedNote_tags_of_some rfl now m,
        updatedNote_updatedAt now _ m⟩

/-- Claim C4, witness: a one-note session with one undo snapshot; the
undo restores title and content, recomputes tags and keeps the frame
fields. -/
theorem claim4_witness :
    (∀ n' ∈ (handleUndo 100 (AppState.mk
        [{ newNote 10 "n1" with title := "t1", content := "c1" }]
        (some "n1") ["n1"] "" none
        [(⟨"n1", "t0", "c0", 1⟩ : Snapshot)] [])).notes,
      ∃ n ∈ [{ newNote 10 "n1" with title := "t1", content := "c1" }],
        n'.id = n.id ∧ n'.createdAt = n.createdAt ∧ n'.archived = n.archived ∧
        n'.starred = n.starred ∧ n'.coverImage = n.coverImage ∧
        n'.images = n.images) ∧
    (handleUndo 100 (AppState.mk
        [{ newNote 10 "n1" with title := "t1", content := "c1" }]
        (some "n1") ["n1"] "" none
        [(⟨"n1", "t0", "c0", 1⟩ : Snapshot)] [])).redoStack
      = [(⟨"n1", "t1", "c1", 100⟩ : Snapshot)] := by
  have h := claim4_undo_redo_frame 100 (AppState.mk
    [{ newNote 10 "n1" with title := "t1", content := "c1" }]
    (some "n1") ["n1"] "" none [(⟨"n1", "t0", "c0", 1⟩ : Snapshot)] [])
  refine ⟨h.1, ?_⟩
  have h3 := h.2.2 "n1" (⟨"n1", "t0", "c0", 1⟩ : Snapshot)
    ({ newNote 10 "n1" with title := "t1", content := "c1" }) rfl (by decide)
    (by decide)
  exact h3.1

set_option maxRecDepth 100000 in
/-- Claim C5: as long as the undo stack held at most 50 entries before
the call (an invariant of all reachable states), a snapshot push leaves
at most 50; when a note is actually snapshotted the redo stack is
cleared, a full stack of 50 evicts its front (oldest) entry, and a
shorter stack simply grows by one at the back.  An undo on an empty
stack is a no-op, and every acting undo pops exactly one entry; a
concrete run of 51 pushes at times 0..50 ends with 50 entries whose
oldest surviving timestamp is 1, the time-0 snapshot having been
evicted. -/
theorem claim5_undo_stack_bound (now : Nat) (s : AppState) :
    (s.undoStack.length ≤ 50 → (saveUndoState now s).undoStack.length ≤ 50) ∧
    (∀ aid note, s.activeId = some aid → getNoteById aid s.notes = some note →
      (saveUndoState now s).redoStack = [] ∧
      (s.undoStack.length = 50 →
        (saveUndoState now s).undoStack
          = s.undoStack.tail
            ++ [(⟨note.id, note.title, note.content, now⟩ : Snapshot)]) ∧
      (s.undoStack.length ≤ 49 →
        (saveUndoState now s).undoStack
          = s.undoStack
            ++ [(⟨note.id, note.title, note.content, now⟩ : Snapshot)])) ∧
    (s.undoStack = [] → handleUndo now s = s) ∧
    (∀ aid prev note, s.activeId = some aid →
      s.undoStack.getLast? = some prev →
      getNoteById aid s.notes = some note →
      (handleUndo now s).undoStack.length = s.undoStack.length - 1) ∧
    (((List.range 51).foldl (fun st k => saveUndoState k st)
        (AppState.mk [newNote 0 "n1"] (some "n1") ["n1"] "" none [] [])).undoStack.length
        = 50 ∧
      ((List.range 51).foldl (fun st k => saveUndoState k st)
        (AppState.mk [newNote 0 "n1"] (some "n1") ["n1"] "" none [] [])).undoStack.head?.map
          Snapshot.timestamp = some 1) := by
  refine ⟨?_, ?_, ?_, ?_, by decide⟩
  · intro hle
    cases ha : s.activeId with
    | none => rw [saveUndoState_noop_active ha]; exact hle
    | some aid =>
      cases hg : getNoteById aid s.notes with
      | none => rw [saveUndoState_noop_note ha hg]; exact hle
      | some note =>
        rw [saveUndoState_eq ha hg]
        simp only
        split
        · rename_i hgt
          rw [List.length_tail]
          simp only [List.length_append, List.length_singleton] at *
          omega
        · rename_i hngt
          simp only [List.length_append, List.length_singleton] at *
          omega
  · intro aid note ha hg
    rw [saveUndoState_eq ha hg]
    refine ⟨rfl, ?_, ?_⟩
    · intro h50
      simp only
      rw [if_pos (by simp [h50])]
      cases hstk : s.undoStack with
      | nil => rw [hstk] at h50; simp at h50
      | cons x xs => simp
    · intro hlt
      simp only
      rw [if_neg (by simp; omega)]
  · intro hempty
    exact handleUndo_noop_stack (by rw [hempty]; rfl) now
  · intro aid prev note ha hl hg
    rw [handleUndo_eq ha hl hg]
    simp only [List.length_dropLast]

/-- Claim C5, witness: a one-note session with one stacked snapshot:
pushing keeps the bound and clears the redo stack. -/
theorem claim5_witness :
    (saveUndoState 7 (AppState.mk [newNote 0 "n1"] (some "n1") ["n1"] "" none
        [(⟨"n1", "t0", "c0", 1⟩ : Snapshot)]
        [(⟨"n1", "t9", "c9", 2⟩ : Snapshot)])).undoStack.length ≤ 50 ∧
    (saveUndoState 7 (AppState.mk [newNote 0 "n1"] (some "n1") ["n1"] "" none
        [(⟨"n1", "t0", "c0", 1⟩ : Snapshot)]
        [(⟨"n1", "t9", "c9", 2⟩ : Snapshot)])).redoStack = [] := by
  have h := claim5_undo_stack_bound 7 (AppState.mk [newNote 0 "n1"]
    (some "n1") ["n1"] "" none [(⟨"n1", "t0", "c0", 1⟩ : Snapshot)]
    [(⟨"n1", "t9", "c9", 2⟩ : Snapshot)])
  exact ⟨h.1 (by decide), (h.2.1 "n1" (newNote 0 "n1") rfl (by decide)).1⟩

/-- Claim C6: the import merge replaces, by the imported record, the
first existing note carrying an already-present id and appends records
with fresh ids; the collection size grows by exactly the number of
fresh-id records, the reported counts are the numbers of fresh-id and
present-id records, the result is sorted by updatedAt descending, and
(on a successful save) it is persisted.  Whole-record replacement: when
the imported ids are pairwise distinct, every imported record is itself
a member of the final collection. -/
theorem claim6_import_merge (imported notes : List Note) :
    SortedByUpdatedDesc (handleImport imported notes).1 ∧
    (handleImport imported notes).1.length
      = notes.length
        + (imported.filter
            (fun q => !((notes.map Note.id).contains q.id))).length ∧
    (handleImport imported notes).2.1
      = (imported.filter
          (fun q => !((notes.map Note.id).contains q.id))).length ∧
    (handleImport imported notes).2.2
      = (imported.filter
          (fun q => (notes.map Note.id).contains q.id)).length ∧
    ((imported.map Note.id).Nodup →
      ∀ q ∈ imported, q ∈ (handleImport imported notes).1) ∧
    (∀ r : Repo, (handleImportR true imported r).2.stored
      = (handleImport imported r.notes).1) := by
  refine ⟨sortByUpdated_sorted _, ?_, ?_, ?_, ?_, ?_⟩
  · show (sortByUpdated (imported.foldl (mergeStep (notes.map Note.id))
      (notes, 0, 0)).1).length = _
    rw [length_sortByUpdated, mergeFold_length]
  · show (imported.foldl (mergeStep (notes.map Note.id)) (notes, 0, 0)).2.1 = _
    rw [(mergeFold_counts (notes.map Note.id) imported (notes, 0, 0)).1]
    simp
  · show (imported.foldl (mergeStep (notes.map Note.id)) (notes, 0, 0)).2.2 = _
    rw [(mergeFold_counts (notes.map Note.id) imported (notes, 0, 0)).2]
    simp
  · intro hnd q hq
    show q ∈ sortByUpdated (imported.foldl (mergeStep (notes.map Note.id))
      (notes, 0, 0)).1
    rw [mem_sortByUpdated]
    refine mergeFold_mem_imported (notes.map Note.id) imported hnd
      (notes, 0, 0) ?_ q hq
    intro i hi
    obtain ⟨n, hn, rfl⟩ := List.mem_map.mp hi
    exact ⟨n, hn, rfl⟩
  · intro r
    rfl

/-- Claim C6, witness: importing one record with an existing id and one
with a fresh id into a two-note collection: size 3, one added, one
merged, and the replacing record is a member of the result. -/
theorem claim6_witness :
    (handleImport [{ newNote 9 "b" with title := "B2" }, newNote 1 "c"]
      [newNote 5 "a", newNote 3 "b"]).1.length = 3 ∧
    (handleImport [{ newNote 9 "b" with title := "B2" }, newNote 1 "c"]
      [newNote 5 "a", newNote 3 "b"]).2.1 = 1 ∧
    (handleImport [{ newNote 9 "b" with title := "B2" }, newNote 1 "c"]
      [newNote 5 "a", newNote 3 "b"]).2.2 = 1 ∧
    { newNote 9 "b" with title := "B2" }
      ∈ (handleImport [{ newNote 9 "b" with title := "B2" }, newNote 1 "c"]
          [newNote 5 "a", newNote 3 "b"]).1 := by
  have h := claim6_import_merge
    [{ newNote 9 "b" with title := "B2" }, newNote 1 "c"]
    [newNote 5 "a", newNote 3 "b"]
  refine ⟨?_, ?_, ?_, ?_⟩
  · rw [h.2.1]; decide
  · rw [h.2.2.1]; decide
  · rw [h.2.2.2.1]; decide
  · exact h.2.2.2.2.1 (by decide) _ (by simp)

/-- Claim C7, counterexample: deleting the active, sole-tab note of a
one-note session sets activeId to null but leaves the deleted id inside
openTabs — the tab list is not cleaned up. -/
theorem claim7_counterexample :
    (handleDeleteNote true "n1" (AppState.mk [newNote 1 "n1"] (some "n1")
        ["n1"] "" none [] [])).activeId = none ∧
    (handleDeleteNote true "n1" (AppState.mk [newNote 1 "n1"] (some "n1")
        ["n1"] "" none [] [])).openTabs = ["n1"] ∧
    ¬ (handleDeleteNote true "n1" (AppState.mk [newNote 1 "n1"] (some "n1")
        ["n1"] "" none [] [])).openTabs = [] := by
  decide

/-- Claim C7, amended: deleting the currently active note removes it from
the collection and re-targets activeId at the first filtered note, which
is null exactly when no unarchived note remains; openTabs is left
unchanged, so the deleted note's id stays in the tab list. -/
theorem claim7_delete_active (s : AppState) (id : String) (n : Note)
    (hid : ¬ id = "") (hfind : getNoteById id s.notes = some n)
    (hact : s.activeId = some id) :
    (handleDeleteNote true id s).openTabs = s.openTabs ∧
    (handleDeleteNote true id s).notes = removeFirst id s.notes ∧
    (handleDeleteNote true id s).activeId
      = ((getFilteredNotes
          { s with notes := removeFirst id s.notes }).head?.map Note.id) ∧
    ((∀ m ∈ removeFirst id s.notes, m.archived) →
      (handleDeleteNote true id s).activeId = none) := by
  have hfind' : s.notes.find? (fun m => m.id == id) = some n := hfind
  have hdel : deleteNote id s.notes = (true, removeFirst id s.notes) := by
    unfold deleteNote
    rw [hfind']
    simp
  have hmain : handleDeleteNote true id s
      = { s with
          notes := removeFirst id s.notes
          activeId := (getFilteredNotes
            { s with notes := removeFirst id s.notes }).head?.map Note.id } := by
    unfold handleDeleteNote
    rw [if_neg hid, hfind]
    simp only [Bool.not_true, Bool.false_eq_true, if_false]
    rw [hdel, hact]
    simp
  refine ⟨by rw [hmain], by rw [hmain], by rw [hmain], ?_⟩
  intro harch
  rw [hmain]
  show (getFilteredNotes { s with notes := removeFirst id s.notes }).head?.map
    Note.id = none
  rw [getFilteredNotes_all_archived harch]
  rfl

/-- Claim C7, witness at the one-note single-tab session: activeId
becomes null, the tab list still holds the deleted id. -/
theorem claim7_witness :
    (handleDeleteNote true "n1" (AppState.mk [newNote 1 "n1"] (some "n1")
        ["n1"] "" none [] [])).openTabs = ["n1"] ∧
    (handleDeleteNote true "n1" (AppState.mk [newNote 1 "n1"] (some "n1")
        ["n1"] "" none [] [])).activeId = none := by
  have h := claim7_delete_active (AppState.mk [newNote 1 "n1"] (some "n1")
    ["n1"] "" none [] []) "n1" (newNote 1 "n1") (by decide) (by decide) rfl
  exact ⟨h.1, h.2.2.2 (by decide)⟩

end Notefy
